import Mathlib

set_option maxHeartbeats 1000000

/- Verification development for the brachistools repository.

   The CLI orchestration is embedded from src/brachistools/__main__.py.
   The segmentation and io collaborator modules are not present in the
   source tree (only their call sites are), so those operations are
   modelled from the design document, as noted on each definition.

   Grids (images, masks, label maps) are embedded as row-major lists with
   an explicit width; pixels are list indices. -/

/-- Character list of a string literal, used for filenames. -/
def cs (s : String) : List Char := s.data

/-- 4-connectivity of row-major pixel indices in a grid of width w:
two pixels are adjacent when they sit in the same row at distance one
column, or in the same column at distance one row. -/
def adjacentb (w i j : ℕ) : Bool :=
  (i / w == j / w && (i + 1 == j || j + 1 == i)) || (i + w == j || j + w == i)

/-- Pixel area of instance v in a label map: the number of pixels carrying
label v. -/
def area (d : List ℕ) (v : ℕ) : ℕ := d.count v

/-- u is a touching neighbor label of instance v: u is a nonzero label
different from v that appears at some pixel 4-adjacent to a pixel of v. -/
def isNbr (w : ℕ) (d : List ℕ) (v u : ℕ) : Bool :=
  u != 0 && u != v &&
    (List.range d.length).any (fun j => d.getD j 0 == u &&
      (List.range d.length).any (fun i => d.getD i 0 == v && adjacentb w i j))

/-- The labels of the instances touching instance v. -/
def neighborIds (w : ℕ) (d : List ℕ) (v : ℕ) : List ℕ :=
  d.dedup.filter (fun u => isNbr w d v u)

/-- Deterministic choice of a largest-area label from a candidate list
(first occurrence wins ties). -/
def chooseMax (d : List ℕ) : List ℕ → ℕ
  | [] => 0
  | [u] => u
  | u :: v :: rest =>
      if area d (chooseMax d (v :: rest)) < area d u then u else chooseMax d (v :: rest)

/-- Condition under which LabelMerger reassigns instance v: it is present,
undersized, and has at least one touching labeled neighbor. -/
def mergeGuard (w k : ℕ) (d : List ℕ) (v : ℕ) : Prop :=
  v ∈ d ∧ area d v < k ∧ neighborIds w d v ≠ []

instance (w k : ℕ) (d : List ℕ) (v : ℕ) : Decidable (mergeGuard w k d v) := by
  unfold mergeGuard; infer_instance

/-- Reassign every pixel of label v to label m. -/
def relabel (d : List ℕ) (v m : ℕ) : List ℕ := d.map (fun x => if x = v then m else x)

/-- One step of the LabelMerger pass: if instance v is undersized and has a
labeled neighbor, reassign all its pixels to its largest touching
neighbor; otherwise leave the map unchanged. -/
def mergeStep (w k : ℕ) (d : List ℕ) (v : ℕ) : List ℕ :=
  if mergeGuard w k d v then relabel d v (chooseMax d (neighborIds w d v)) else d

/-- The distinct nonzero labels of a label map, in first-occurrence order. -/
def ids (d : List ℕ) : List ℕ := (d.filter (fun x => x != 0)).dedup

/-- Insertion into an ascending list. -/
def insertAsc (x : ℕ) : List ℕ → List ℕ
  | [] => [x]
  | y :: ys => if x ≤ y then x :: y :: ys else y :: insertAsc x ys

/-- Insertion sort into ascending order. -/
def sortAsc : List ℕ → List ℕ
  | [] => []
  | x :: xs => insertAsc x (sortAsc xs)

/-- Modelled from the spec: `merge_small` of the LabelMerger stage
(brachistools.segmentation is not in the source tree). A single
deterministic pass over the instance labels in ascending order; each
undersized instance with a labeled touching neighbor (4-connectivity) has
all of its pixels reassigned to its largest-area touching neighbor, while
undersized instances touching only background are left unmerged. -/
def merge_small (w : ℕ) (d : List ℕ) (k : ℕ) : List ℕ :=
  (sortAsc (ids d)).foldl (mergeStep w k) d

/-- A label map with no instance that is both undersized and
neighbor-touching: every instance has area at least k or touches only
background. -/
def goodMap (w k : ℕ) (d : List ℕ) : Prop :=
  ∀ v ∈ ids d, k ≤ area d v ∨ neighborIds w d v = []

/-- Position of pixel index i in the seed list, as a 1-based label;
0 when i is not a seed. -/
def seedLabelAux : List ℕ → ℕ → ℕ → ℕ
  | [], _, _ => 0
  | s :: rest, i, acc => if s = i then acc else seedLabelAux rest i (acc + 1)

/-- Initial marker map of the WatershedLabeler: each seed pixel inside the
mask gets a unique positive label (its 1-based position in the seed list);
every other pixel is background. -/
def wsInit (mask : List Bool) (seeds : List ℕ) : List ℕ :=
  (List.range mask.length).map (fun i => if mask.getD i false then seedLabelAux seeds i 1 else 0)

/-- The nonzero labels found at pixels 4-adjacent to pixel i. -/
def adjLabels (w : ℕ) (lab : List ℕ) (i : ℕ) : List ℕ :=
  ((List.range lab.length).filter (fun j => adjacentb w i j && lab.getD j 0 != 0)).map
    (fun j => lab.getD j 0)

/-- Smallest element of a label list, 0 when empty. -/
def minLabel : List ℕ → ℕ
  | [] => 0
  | u :: rest =>
      if minLabel rest = 0 ∨ u ≤ minLabel rest then u else minLabel rest

/-- One flooding round of the WatershedLabeler: every still-unlabeled mask
pixel that touches a labeled region receives the smallest adjacent label
(first-seed priority at collision boundaries); growth never leaves the
mask. -/
def wsStep (w : ℕ) (mask : List Bool) (lab : List ℕ) : List ℕ :=
  (List.range lab.length).map (fun i =>
    if lab.getD i 0 ≠ 0 then lab.getD i 0
    else if mask.getD i false then minLabel (adjLabels w lab i) else 0)

/-- Modelled from the spec: the WatershedLabeler stage
(brachistools.segmentation is not in the source tree). Regions grow from
the seed markers, constrained to the mask, never merging differently
seeded regions (ties broken by first-seed priority); flooding for as many
rounds as there are pixels reaches a fixed point. Zero seeds yield an
all-background map rather than an error. -/
def watershed (w : ℕ) (mask : List Bool) (seeds : List ℕ) : List ℕ :=
  (wsStep w mask)^[mask.length] (wsInit mask seeds)

/-- One instance record of an annotation document: a stable integer ID with
the pixel region its stored contour rasterizes to. Modelled from the spec:
the contour representation of brachistools.io is abstracted as the region
of pixel indices it encloses, since the rasterization algorithm is not in
the source tree. -/
structure InstanceRec where
  id : ℕ
  pixels : List ℕ
deriving DecidableEq

/-- An annotation document: image dimensions plus one contour record per
instance, the persisted form of a label map. -/
structure AnnDoc where
  width : ℕ
  size : ℕ
  records : List InstanceRec
deriving DecidableEq

/-- Modelled from the spec: `labels_to_xml` of brachistools.io (not in the
source tree). Encodes a label map as a document holding the image
dimensions and, for each instance in ascending ID order, a record of its
ID and its pixel region. -/
def labels_to_xml (w : ℕ) (d : List ℕ) : AnnDoc :=
  ⟨w, d.length,
    (sortAsc (ids d)).map
      (fun v => ⟨v, (List.range d.length).filter (fun i => d.getD i 0 == v)⟩)⟩

/-- Rasterize one instance record onto an accumulator label map: pixels of
the record receive its ID, all others keep their current label. -/
def writeRec (acc : List ℕ) (r : InstanceRec) : List ℕ :=
  (List.range acc.length).map (fun i => if i ∈ r.pixels then r.id else acc.getD i 0)

/-- Modelled from the spec: `xml_to_labels` of brachistools.io (not in the
source tree). Decodes a document by rasterizing each stored record, in
order, onto an all-background map of the recorded size. -/
def xml_to_labels (doc : AnnDoc) : List ℕ :=
  doc.records.foldl writeRec (List.replicate doc.size 0)

/-- A value stored in a parameter record: either a numeric stage parameter
or a nested table (default_segmentation_params is a two-level dictionary,
as its nested reads in get_arg_parser show). -/
inductive PVal (α : Type) where
  | num (a : α)
  | table (entries : List (String × α))
deriving DecidableEq

/-- Dictionary update: replace the value at an existing key, else append
the new binding (Python dict assignment on an association list). -/
def setKey {α : Type} (l : List (String × PVal α)) (k : String) (v : PVal α) :
    List (String × PVal α) :=
  match l with
  | [] => [(k, v)]
  | (k', v') :: rest => if k' = k then (k, v) :: rest else (k', v') :: setKey rest k v

/-- Dictionary lookup by key. -/
def getKey {α : Type} : List (String × PVal α) → String → Option (PVal α)
  | [], _ => none
  | (k', v) :: rest, k => if k' = k then some v else getKey rest k

/-- Lookup of a numeric parameter value. -/
def lookupNum {α : Type} (cfg : List (String × PVal α)) (k : String) : Option α :=
  match getKey cfg k with
  | some (PVal.num a) => some a
  | _ => none

/-- The parameter record built by the segment command (main, lines
208-215): the seven stage parameters are stored on a copy of the defaults
under flat colon-qualified keys. -/
def buildSegmentParams {α : Type} (defaults : List (String × PVal α))
    (a1 a2 a3 a4 a5 a6 a7 : α) : List (String × PVal α) :=
  setKey (setKey (setKey (setKey (setKey (setKey (setKey defaults
    ("vahadane:sparsity_regularizer") (PVal.num a1))
    ("equalize_adapthist:clip_limit") (PVal.num a2))
    ("remove_small_objects:min_size") (PVal.num a3))
    ("remove_small_holes:area_threshold") (PVal.num a4))
    ("peak_local_max:min_distance") (PVal.num a5))
    ("peak_local_max:threshold_rel") (PVal.num a6))
    ("merge_small_labels:min_size") (PVal.num a7)

/-- Modelled from the spec: the pipeline reads its seven stage parameters
from the configuration record under the flat colon-qualified keys; a
missing key is a failure (KeyError), modelled as none. -/
def pipelineParams {α : Type} (cfg : List (String × PVal α)) :
    Option (α × α × α × α × α × α × α) :=
  match lookupNum cfg ("vahadane:sparsity_regularizer"),
        lookupNum cfg ("equalize_adapthist:clip_limit"),
        lookupNum cfg ("remove_small_objects:min_size"),
        lookupNum cfg ("remove_small_holes:area_threshold"),
        lookupNum cfg ("peak_local_max:min_distance"),
        lookupNum cfg ("peak_local_max:threshold_rel"),
        lookupNum cfg ("merge_small_labels:min_size") with
  | some p1, some p2, some p3, some p4, some p5, some p6, some p7 =>
      some (p1, p2, p3, p4, p5, p6, p7)
  | _, _, _, _, _, _, _ => none

/-- Modelled from the spec: `segmentation_pipeline` of
brachistools.segmentation (not in the source tree). The six stages run in
the fixed order StainDeconvolver, ContrastEnhancer, BinaryMaskCleaner,
SeedDetector, WatershedLabeler, LabelMerger, threaded with the single
configuration record; the result is the pair (binary nucleus mask,
instance label map). The numeric interiors of the first four stages are
abstract function parameters; asSize models the integer reading of the
merge threshold. -/
def segmentation_pipeline {α ι χ : Type} (asSize : α → ℕ) (w : ℕ)
    (deconvolve : ι → α → χ) (enhance : χ → α → χ)
    (clean : χ → α → α → List Bool) (find_seeds : List Bool → α → α → List ℕ)
    (img : ι) (cfg : List (String × PVal α)) : Option (List Bool × List ℕ) :=
  match pipelineParams cfg with
  | none => none
  | some (p1, p2, p3, p4, p5, p6, p7) =>
      let chan := deconvolve img p1
      let enh := enhance chan p2
      let mask := clean enh p3 p4
      let seeds := find_seeds mask p5 p6
      let lab := watershed w mask seeds
      some (mask, merge_small w lab (asSize p7))

/-- A heap of Python dictionaries: references are indices into the store.
Used to embed the mutation behaviour of the segment command's parameter
setup. -/
abbrev Store (α : Type) : Type := List (List (String × PVal α))

/-- dict.copy(): allocate a fresh dictionary holding the same bindings and
return its reference. -/
def dictCopy {α : Type} (st : Store α) (r : ℕ) : Store α × ℕ :=
  (st ++ [st.getD r []], st.length)

/-- In-place dictionary assignment through a reference. -/
def dictSet {α : Type} (st : Store α) (r : ℕ) (k : String) (v : PVal α) : Store α :=
  st.set r (setKey (st.getD r []) k v)

/-- The segment command's parameter setup (main, lines 208-215): copy
default_segmentation_params, then assign the seven flat colon-qualified
keys on the copy, in place. Returns the updated store and the reference to
the new record. -/
def segSetup {α : Type} (st : Store α) (dref : ℕ) (a1 a2 a3 a4 a5 a6 a7 : α) :
    Store α × ℕ :=
  let c := dictCopy st dref
  (dictSet (dictSet (dictSet (dictSet (dictSet (dictSet (dictSet c.1
    c.2 ("vahadane:sparsity_regularizer") (PVal.num a1))
    c.2 ("equalize_adapthist:clip_limit") (PVal.num a2))
    c.2 ("remove_small_objects:min_size") (PVal.num a3))
    c.2 ("remove_small_holes:area_threshold") (PVal.num a4))
    c.2 ("peak_local_max:min_distance") (PVal.num a5))
    c.2 ("peak_local_max:threshold_rel") (PVal.num a6))
    c.2 ("merge_small_labels:min_size") (PVal.num a7), c.2)

/-- The per-file loop shape shared by the segment command (main, lines
217-232) and the show command (main, lines 191-205): each file's
processing is wrapped in its own try/except, a failure is recorded
together with the offending filename, and the loop continues with the
remaining files. -/
def loggedBatch {γ ε β : Type} (process : γ → Except ε β) (files : List γ) :
    List (Except (γ × ε) β) :=
  files.map (fun fn =>
    match process fn with
    | Except.ok b => Except.ok b
    | Except.error e => Except.error (fn, e))

/-- The per-file loop of the classify command (main, lines 241-245): the
body has no try/except, so the first failing file aborts the remaining
batch with the propagated exception. -/
def classifyBatch {γ ε ρ : Type} (process : γ → Except ε ρ) :
    List γ → Except ε (List (γ × ρ))
  | [] => Except.ok []
  | fn :: rest =>
      match process fn with
      | Except.error e => Except.error e
      | Except.ok r =>
          match classifyBatch process rest with
          | Except.error e => Except.error e
          | Except.ok rows => Except.ok ((fn, r) :: rows)

/-- Split a reversed character list at its first dot: returns (characters
before the dot, characters after it), i.e. the reversed extension and
reversed root of the original filename; none when there is no dot. -/
def breakDot : List Char → Option (List Char × List Char)
  | [] => none
  | c :: rest =>
      if c = '.' then some ([], rest)
      else (breakDot rest).map (fun p => (c :: p.1, p.2))

/-- Root name of a filename (os.path.splitext): everything before the last
dot, or the whole name when there is no dot. -/
def rootOf (fn : List Char) : List Char :=
  match breakDot fn.reverse with
  | none => fn
  | some p => p.2.reverse

/-- Extension of a filename (os.path.splitext, without the dot). -/
def extOf (fn : List Char) : List Char :=
  match breakDot fn.reverse with
  | none => []
  | some p => p.1.reverse

/-- Case-insensitive equality of extensions. -/
def upperEq (a b : List Char) : Bool :=
  a.map Char.toUpper == b.map Char.toUpper

/-- Modelled from the spec: `load_folder` of brachistools.io (not in the
source tree). The folder enumerator keeps, in listing order, the filenames
whose extension matches one of the filters (case-insensitively) and whose
root name does not end with any of the ignored suffixes. -/
def load_folder (listing exts ignored : List (List Char)) : List (List Char) :=
  listing.filter (fun fn =>
    exts.any (fun e => upperEq (extOf fn) e) &&
      !(ignored.any (fun s => s.isSuffixOf (rootOf fn))))

/-- Python truthiness of an optional CLI string argument: absent or empty
is falsy. -/
def truthy : Option (List Char) → Bool
  | none => false
  | some s => !s.isEmpty

/-- Input preparation of main (lines 157-181): specifying both --dir and
--image_path, or neither, logs a critical message and exits with status
-1; a directory is enumerated with the command's extension filters
(XML for show, image formats otherwise); a single image path is passed
through. -/
def prepareInputs (listing : List (List Char)) (isShow : Bool)
    (dir imagePath : Option (List Char)) (ignored : List (List Char)) :
    Except Int (List (List Char)) :=
  if truthy dir && truthy imagePath then Except.error (-1)
  else if truthy dir then
    Except.ok (load_folder listing
      (if isShow then [cs ("XML")] else [cs ("PNG"), cs ("JPG"), cs ("JPEG")]) ignored)
  else if truthy imagePath then Except.ok [imagePath.getD []]
  else Except.error (-1)

/-- The files the segment command writes for one successfully processed
image (main, lines 222-228): always the binary mask image and the
instance-segmentation XML, plus the two .npy arrays exactly when
--save_npy is set. -/
def segmentWrites (root fmt : List Char) (saveNpy : Bool) : List (List Char) :=
  [root ++ cs ("_mask.") ++ fmt, root ++ cs ("_seg.xml")] ++
    (if saveNpy then [root ++ cs ("_mask.npy"), root ++ cs ("_mask_labels.npy")] else [])

/- Supporting lemmas about label maps and the LabelMerger pass. -/

theorem mem_ids {d : List ℕ} {u : ℕ} : u ∈ ids d ↔ u ∈ d ∧ u ≠ 0 := by
  simp [ids, List.mem_dedup, List.mem_filter]

theorem adjacentb_symm {w i j : ℕ} (h : adjacentb w i j = true) : adjacentb w j i = true := by
  simp only [adjacentb, Bool.or_eq_true, Bool.and_eq_true, beq_iff_eq] at h ⊢
  rcases h with ⟨h1, h2⟩ | h3
  · exact Or.inl ⟨h1.symm, h2.symm⟩
  · exact Or.inr h3.symm

theorem isNbr_iff {w : ℕ} {d : List ℕ} {v u : ℕ} :
    isNbr w d v u = true ↔
      u ≠ 0 ∧ u ≠ v ∧ ∃ j, j < d.length ∧ d.getD j 0 = u ∧
        ∃ i, i < d.length ∧ d.getD i 0 = v ∧ adjacentb w i j = true := by
  simp only [isNbr, List.any_eq_true, List.mem_range, Bool.and_eq_true, bne_iff_ne, beq_iff_eq]
  tauto

theorem getD_lt {d : List ℕ} {i : ℕ} (h : i < d.length) : d.getD i 0 = d[i] :=
  List.getD_eq_getElem d 0 h

theorem length_relabel (d : List ℕ) (v m : ℕ) : (relabel d v m).length = d.length := by
  simp [relabel]

theorem getD_relabel {d : List ℕ} {i : ℕ} (v m : ℕ) (h : i < d.length) :
    (relabel d v m).getD i 0 = if d.getD i 0 = v then m else d.getD i 0 := by
  rw [getD_lt (by simpa [relabel] using h), getD_lt h]
  simp [relabel]

theorem mem_relabel {d : List ℕ} {v m x : ℕ} (h : x ∈ relabel d v m) : x ∈ d ∨ x = m := by
  rcases List.mem_map.mp h with ⟨y, hy, hyx⟩
  by_cases hyv : y = v
  · subst hyv; simp only [if_pos rfl] at hyx; exact Or.inr hyx.symm
  · rw [if_neg hyv] at hyx; exact Or.inl (hyx ▸ hy)

theorem not_mem_relabel {d : List ℕ} {v m : ℕ} (hm : m ≠ v) : v ∉ relabel d v m := by
  intro h
  rcases List.mem_map.mp h with ⟨y, _, hyx⟩
  by_cases hyv : y = v
  · subst hyv; rw [if_pos rfl] at hyx; exact hm hyx
  · rw [if_neg hyv] at hyx; exact hyv hyx

theorem area_relabel_le {d : List ℕ} (v m u : ℕ) (h : u ≠ v) :
    area d u ≤ area (relabel d v m) u := by
  induction d with
  | nil => simp [relabel, area]
  | cons x t ih =>
      simp only [area, relabel, List.map_cons, List.count_cons] at *
      by_cases hxv : x = v
      · subst hxv
        have hxu : (x == u) = false := by
          rw [beq_eq_false_iff_ne]
          exact fun hh => h hh.symm
        rw [hxu, if_pos rfl]
        have h0 : (if (false = true) then 1 else 0) = 0 := by simp
        rw [h0]
        omega
      · rw [if_neg hxv]
        omega

theorem mem_neighborIds {w : ℕ} {d : List ℕ} {v u : ℕ} :
    u ∈ neighborIds w d v ↔ u ∈ d ∧ isNbr w d v u = true := by
  simp [neighborIds, List.mem_filter, List.mem_dedup]

theorem neighborIds_nil_iff {w : ℕ} {d : List ℕ} {v : ℕ} :
    neighborIds w d v = [] ↔ ∀ u, isNbr w d v u = false := by
  constructor
  · intro h u
    by_contra hu
    rw [Bool.not_eq_false] at hu
    have humem : u ∈ d := by
      rcases isNbr_iff.mp hu with ⟨_, _, j, hj, hdj, _⟩
      rw [getD_lt hj] at hdj
      exact hdj ▸ List.getElem_mem hj
    have hmem : u ∈ neighborIds w d v := mem_neighborIds.mpr ⟨humem, hu⟩
    rw [h] at hmem
    cases hmem
  · intro h
    rw [neighborIds, List.filter_eq_nil_iff]
    intro u _
    simp [h u]

theorem isNbr_symm {w : ℕ} {d : List ℕ} {v u : ℕ} (hv : v ≠ 0)
    (h : isNbr w d v u = true) : isNbr w d u v = true := by
  rcases isNbr_iff.mp h with ⟨_, huv, j, hj, hdj, i, hi, hdi, hadj⟩
  exact isNbr_iff.mpr ⟨hv, fun hvu => huv hvu.symm, i, hi, hdi, j, hj, hdj, adjacentb_symm hadj⟩

theorem chooseMax_mem (d : List ℕ) : ∀ (l : List ℕ), l ≠ [] → chooseMax d l ∈ l
  | [], h => absurd rfl h
  | [u], _ => by simp [chooseMax]
  | u :: v :: rest, _ => by
      rw [chooseMax]
      split
      · exact List.mem_cons_self _ _
      · exact List.mem_cons_of_mem _ (chooseMax_mem d (v :: rest) (by simp))

theorem isNbr_relabel_false {w : ℕ} {d : List ℕ} {v m u : ℕ}
    (huv : u ≠ v) (hum : u ≠ m) (hv0 : v ≠ 0)
    (h : ∀ x, isNbr w d u x = false) : ∀ x, isNbr w (relabel d v m) u x = false := by
  intro x
  by_contra hx
  rw [Bool.not_eq_false] at hx
  rcases isNbr_iff.mp hx with ⟨hx0, hxu, j, hj, hdj, i, hi, hdi, hadj⟩
  rw [length_relabel] at hj hi
  rw [getD_relabel v m hj] at hdj
  rw [getD_relabel v m hi] at hdi
  have hdiu : d.getD i 0 = u := by
    by_cases hdiv : d.getD i 0 = v
    · rw [if_pos hdiv] at hdi; exact absurd hdi.symm hum
    · rwa [if_neg hdiv] at hdi
  by_cases hdjv : d.getD j 0 = v
  · have hcontra : isNbr w d u v = true :=
      isNbr_iff.mpr ⟨hv0, fun hvu => huv hvu.symm, j, hj, hdjv, i, hi, hdiu, hadj⟩
    rw [h v] at hcontra
    cases hcontra
  · rw [if_neg hdjv] at hdj
    have hcontra : isNbr w d u x = true :=
      isNbr_iff.mpr ⟨hx0, hxu, j, hj, hdj, i, hi, hdiu, hadj⟩
    rw [h x] at hcontra
    cases hcontra

theorem mem_insertAsc {x y : ℕ} {l : List ℕ} : y ∈ insertAsc x l ↔ y = x ∨ y ∈ l := by
  induction l with
  | nil => simp [insertAsc]
  | cons z t ih =>
      rw [insertAsc]
      split
      · simp [List.mem_cons]
      · simp only [List.mem_cons, ih]
        tauto

theorem mem_sortAsc {x : ℕ} {l : List ℕ} : x ∈ sortAsc l ↔ x ∈ l := by
  induction l with
  | nil => simp [sortAsc]
  | cons y t ih => simp [sortAsc, mem_insertAsc, ih]

theorem foldl_mergeStep_noop {w k : ℕ} :
    ∀ (l : List ℕ) (d : List ℕ), (∀ v ∈ l, ¬ mergeGuard w k d v) →
      l.foldl (mergeStep w k) d = d
  | [], _, _ => rfl
  | v :: rest, d, h => by
      have hstep : mergeStep w k d v = d := by
        rw [mergeStep, if_neg (h v (List.mem_cons_self v rest))]
      rw [List.foldl_cons, hstep]
      exact foldl_mergeStep_noop rest d (fun u hu => h u (List.mem_cons_of_mem _ hu))

theorem merge_small_of_good {w k : ℕ} {d : List ℕ} (h : goodMap w k d) :
    merge_small w d k = d := by
  apply foldl_mergeStep_noop
  intro v hv
  have hvids : v ∈ ids d := mem_sortAsc.mp hv
  rcases h v hvids with hk | hnil
  · exact fun hg => absurd hg.2.1 (by omega)
  · exact fun hg => hg.2.2 hnil

theorem foldl_mergeStep_good {w k : ℕ} :
    ∀ (l : List ℕ) (d : List ℕ), (∀ v ∈ l, v ≠ 0) →
      (∀ u ∈ ids d, u ∈ l ∨ k ≤ area d u ∨ neighborIds w d u = []) →
      goodMap w k (l.foldl (mergeStep w k) d)
  | [], d, _, hinv => by
      intro u hu
      rcases hinv u hu with h | h | h
      · cases h
      · exact Or.inl h
      · exact Or.inr h
  | v :: rest, d, h0, hinv => by
      rw [List.foldl_cons]
      by_cases hg : mergeGuard w k d v
      case neg =>
        have hstep : mergeStep w k d v = d := by rw [mergeStep, if_neg hg]
        rw [hstep]
        apply foldl_mergeStep_good rest d (fun x hx => h0 x (List.mem_cons_of_mem _ hx))
        intro u hu
        rcases hinv u hu with hul | h | h
        · rcases List.mem_cons.mp hul with rfl | hur
          · right
            rcases Decidable.em (k ≤ area d u) with hk | hk
            · exact Or.inl hk
            · rcases Decidable.em (neighborIds w d u = []) with hn | hn
              · exact Or.inr hn
              · exact absurd ⟨(mem_ids.mp hu).1, by omega, hn⟩ hg
          · exact Or.inl hur
        · exact Or.inr (Or.inl h)
        · exact Or.inr (Or.inr h)
      case pos =>
        have hstep : mergeStep w k d v = relabel d v (chooseMax d (neighborIds w d v)) := by
          rw [mergeStep, if_pos hg]
        rw [hstep]
        have hnsne : neighborIds w d v ≠ [] := hg.2.2
        have hmns : chooseMax d (neighborIds w d v) ∈ neighborIds w d v :=
          chooseMax_mem d _ hnsne
        have hmd : chooseMax d (neighborIds w d v) ∈ d := (mem_neighborIds.mp hmns).1
        have hmnbr : isNbr w d v (chooseMax d (neighborIds w d v)) = true :=
          (mem_neighborIds.mp hmns).2
        have hmv : chooseMax d (neighborIds w d v) ≠ v := (isNbr_iff.mp hmnbr).2.1
        have hv0 : v ≠ 0 := h0 v (List.mem_cons_self _ _)
        have hvnbrm : isNbr w d (chooseMax d (neighborIds w d v)) v = true :=
          isNbr_symm hv0 hmnbr
        apply foldl_mergeStep_good rest _ (fun x hx => h0 x (List.mem_cons_of_mem _ hx))
        intro u hu
        have hu' := mem_ids.mp hu
        have hud : u ∈ d := by
          rcases mem_relabel hu'.1 with hh | rfl
          · exact hh
          · exact hmd
        have huv : u ≠ v := by
          rintro rfl
          exact not_mem_relabel hmv hu'.1
        have huids : u ∈ ids d := mem_ids.mpr ⟨hud, hu'.2⟩
        rcases hinv u huids with hul | hk | hn
        · rcases List.mem_cons.mp hul with rfl | hur
          · exact absurd rfl huv
          · exact Or.inl hur
        · exact Or.inr (Or.inl (le_trans hk (area_relabel_le v _ u huv)))
        · refine Or.inr (Or.inr ?_)
          have hum : u ≠ chooseMax d (neighborIds w d v) := by
            rintro rfl
            have hc := hvnbrm
            rw [neighborIds_nil_iff.mp hn v] at hc
            cases hc
          exact neighborIds_nil_iff.mpr
            (isNbr_relabel_false huv hum hv0 (neighborIds_nil_iff.mp hn))

/-- C2: merge_small is idempotent: for every label map and every threshold,
merging twice equals merging once; and a label map with no remaining
undersized instance is a fixed point of merge_small. -/
theorem merge_small_idempotent (w k : ℕ) (d e : List ℕ) :
    merge_small w (merge_small w d k) k = merge_small w d k ∧
    ((∀ v ∈ ids e, k ≤ area e v) → merge_small w e k = e) := by
  constructor
  · apply merge_small_of_good
    apply foldl_mergeStep_good
    · intro v hv
      exact (mem_ids.mp (mem_sortAsc.mp hv)).2
    · intro u hu
      exact Or.inl (mem_sortAsc.mpr hu)
  · intro he
    exact merge_small_of_good (fun v hv => Or.inl (he v hv))

/-- Witness for C2 at a concrete label map. -/
theorem merge_small_idempotent_witness :
    merge_small 2 (merge_small 2 [1, 1, 2, 0] 2) 2 = merge_small 2 [1, 1, 2, 0] 2 ∧
    merge_small 2 [1, 1, 2, 0] 0 = [1, 1, 2, 0] :=
  ⟨(merge_small_idempotent 2 2 [1, 1, 2, 0] [1, 1, 2, 0]).1,
   (merge_small_idempotent 2 0 [1, 1, 2, 0] [1, 1, 2, 0]).2 (by decide)⟩

/- Supporting lemmas about the WatershedLabeler with no seeds. -/

theorem getD_replicate_zero {n i : ℕ} : (List.replicate n (0:ℕ)).getD i 0 = 0 := by
  rcases Nat.lt_or_ge i n with h | h
  · rw [List.getD_eq_getElem _ _ (by simpa using h)]
    simp
  · rw [List.getD_eq_default]
    simpa using h

theorem wsInit_nil_seeds (mask : List Bool) : wsInit mask [] = List.replicate mask.length 0 := by
  unfold wsInit
  rw [List.eq_replicate_iff]
  refine ⟨by simp, ?_⟩
  intro b hb
  rcases List.mem_map.mp hb with ⟨i, _, hib⟩
  rw [← hib]
  cases hmask : mask.getD i false <;> simp [seedLabelAux, hmask]

theorem adjLabels_replicate_zero (w i n : ℕ) :
    adjLabels w (List.replicate n 0) i = [] := by
  simp [adjLabels, getD_replicate_zero]

theorem wsStep_replicate_zero (w : ℕ) (mask : List Bool) (n : ℕ) :
    wsStep w mask (List.replicate n 0) = List.replicate n 0 := by
  unfold wsStep
  rw [List.length_replicate, List.eq_replicate_iff]
  refine ⟨by simp, ?_⟩
  intro b hb
  rcases List.mem_map.mp hb with ⟨i, _, hib⟩
  rw [← hib, getD_replicate_zero, adjLabels_replicate_zero]
  cases hmask : mask.getD i false <;> simp [hmask, minLabel]

theorem iterate_wsStep_replicate_zero (w : ℕ) (mask : List Bool) :
    ∀ (k n : ℕ), (wsStep w mask)^[k] (List.replicate n 0) = List.replicate n 0
  | 0, _ => rfl
  | k + 1, n => by
      rw [Function.iterate_succ_apply, wsStep_replicate_zero]
      exact iterate_wsStep_replicate_zero w mask k n

theorem watershed_no_seeds (w : ℕ) (mask : List Bool) :
    watershed w mask [] = List.replicate mask.length 0 := by
  unfold watershed
  rw [wsInit_nil_seeds]
  exact iterate_wsStep_replicate_zero w mask mask.length mask.length

theorem ids_replicate_zero (n : ℕ) : ids (List.replicate n 0) = [] := by
  have h : (List.replicate n (0:ℕ)).filter (fun x => x != 0) = [] := by
    induction n with
    | zero => rfl
    | succ m ih => rw [List.replicate_succ, List.filter_cons]; simp [ih]
  rw [ids, h]
  rfl

theorem merge_small_replicate_zero (w n k : ℕ) :
    merge_small w (List.replicate n 0) k = List.replicate n 0 := by
  unfold merge_small
  rw [ids_replicate_zero]
  rfl

/-- C7: zero detected instances is a valid, successful result: zero seeds
supplied to the WatershedLabeler for a non-empty mask produce the
all-background label map with no instances rather than an error, and the
pipeline run with a seed detector that finds no seeds still returns an ok
pair whose instance label map is entirely background. -/
theorem watershed_zero_seeds {α ι χ : Type} (asSize : α → ℕ) (w : ℕ)
    (deconvolve : ι → α → χ) (enhance : χ → α → χ)
    (clean : χ → α → α → List Bool) (img : ι)
    (cfg : List (String × PVal α)) (p1 p2 p3 p4 p5 p6 p7 : α)
    (mask : List Bool) (hmask : mask.any (fun b => b) = true)
    (hcfg : pipelineParams cfg = some (p1, p2, p3, p4, p5, p6, p7)) :
    watershed w mask [] = List.replicate mask.length 0 ∧
    ids (watershed w mask []) = [] ∧
    segmentation_pipeline asSize w deconvolve enhance clean (fun _ _ _ => []) img cfg =
      some (clean (enhance (deconvolve img p1) p2) p3 p4,
        List.replicate (clean (enhance (deconvolve img p1) p2) p3 p4).length 0) := by
  refine ⟨watershed_no_seeds w mask, ?_, ?_⟩
  · rw [watershed_no_seeds, ids_replicate_zero]
  · simp only [segmentation_pipeline, hcfg]
    rw [watershed_no_seeds, merge_small_replicate_zero]

/-- Witness for C7 at a concrete non-empty mask and configuration. -/
theorem watershed_zero_seeds_witness :
    watershed 1 [true] [] = [0] ∧
    ids (watershed 1 [true] []) = [] ∧
    segmentation_pipeline (fun n => n) 1 (fun (_ : ℕ) (_ : ℕ) => (0 : ℕ))
      (fun c _ => c) (fun _ _ _ => [true]) (fun _ _ _ => []) 0
      (buildSegmentParams [] 1 1 1 1 1 1 1) = some ([true], [0]) :=
  watershed_zero_seeds (fun n => n) 1 (fun _ _ => 0) (fun c _ => c)
    (fun _ _ _ => [true]) 0 (buildSegmentParams [] 1 1 1 1 1 1 1)
    1 1 1 1 1 1 1 [true] (by decide) rfl

/- Supporting lemmas about the label/XML codec. -/

theorem length_writeRec (acc : List ℕ) (r : InstanceRec) :
    (writeRec acc r).length = acc.length := by
  simp [writeRec]

theorem getD_writeRec {acc : List ℕ} {i : ℕ} (r : InstanceRec) (h : i < acc.length) :
    (writeRec acc r).getD i 0 = if i ∈ r.pixels then r.id else acc.getD i 0 := by
  rw [getD_lt (by simpa [writeRec] using h)]
  simp [writeRec]

theorem length_foldl_writeRec (recs : List InstanceRec) :
    ∀ acc : List ℕ, (recs.foldl writeRec acc).length = acc.length := by
  induction recs with
  | nil => intro acc; rfl
  | cons r rest ih =>
      intro acc
      rw [List.foldl_cons, ih, length_writeRec]

theorem getD_foldl_writeRec (d : List ℕ) :
    ∀ (recs : List InstanceRec) (acc : List ℕ), acc.length = d.length →
      (∀ r ∈ recs, ∀ i ∈ r.pixels, i < d.length ∧ d.getD i 0 = r.id) →
      ∀ i, i < d.length →
        (recs.foldl writeRec acc).getD i 0 =
          if (∃ r ∈ recs, i ∈ r.pixels) then d.getD i 0 else acc.getD i 0
  | [], acc, _, _, i, _ => by simp
  | r :: rest, acc, hlen, hpre, i, hi => by
      rw [List.foldl_cons]
      have hlen' : (writeRec acc r).length = d.length := by rw [length_writeRec, hlen]
      have ih := getD_foldl_writeRec d rest (writeRec acc r) hlen'
        (fun r' hr' => hpre r' (List.mem_cons_of_mem _ hr')) i hi
      rw [ih, getD_writeRec r (by rw [hlen]; exact hi)]
      by_cases hir : i ∈ r.pixels
      · have hid : d.getD i 0 = r.id := (hpre r (List.mem_cons_self _ _) i hir).2
        have hcons : ∃ r' ∈ r :: rest, i ∈ r'.pixels := ⟨r, List.mem_cons_self _ _, hir⟩
        rw [if_pos hcons]
        by_cases hrest : ∃ r' ∈ rest, i ∈ r'.pixels
        · rw [if_pos hrest]
        · rw [if_neg hrest, if_pos hir]
          exact hid.symm
      · by_cases hrest : ∃ r' ∈ rest, i ∈ r'.pixels
        · have hcons : ∃ r' ∈ r :: rest, i ∈ r'.pixels := by
            rcases hrest with ⟨r', hr', hir'⟩
            exact ⟨r', List.mem_cons_of_mem _ hr', hir'⟩
          rw [if_pos hrest, if_pos hcons]
        · have hcons : ¬∃ r' ∈ r :: rest, i ∈ r'.pixels := by
            rintro ⟨r', hr', hir'⟩
            rcases List.mem_cons.mp hr' with rfl | hmem
            · exact hir hir'
            · exact hrest ⟨r', hmem, hir'⟩
          rw [if_neg hrest, if_neg hir, if_neg hcons]

theorem labels_to_xml_pre (w : ℕ) (d : List ℕ) :
    ∀ r ∈ (labels_to_xml w d).records, ∀ i ∈ r.pixels, i < d.length ∧ d.getD i 0 = r.id := by
  intro r hr i hi
  rcases List.mem_map.mp hr with ⟨v, hv, hvr⟩
  rw [← hvr] at hi ⊢
  rcases List.mem_filter.mp hi with ⟨hrange, hb⟩
  exact ⟨List.mem_range.mp hrange, by simpa using hb⟩

theorem xml_roundtrip_eq (w : ℕ) (d : List ℕ) : xml_to_labels (labels_to_xml w d) = d := by
  have hlen : (xml_to_labels (labels_to_xml w d)).length = d.length := by
    unfold xml_to_labels
    rw [length_foldl_writeRec]
    simp [labels_to_xml]
  apply List.ext_getElem hlen
  intro i hi1 hi2
  have hi : i < d.length := hi2
  have hmain := getD_foldl_writeRec d (labels_to_xml w d).records
    (List.replicate (labels_to_xml w d).size 0) (by simp [labels_to_xml])
    (labels_to_xml_pre w d) i hi
  have hx : (xml_to_labels (labels_to_xml w d)).getD i 0 = d.getD i 0 := by
    unfold xml_to_labels
    rw [hmain]
    by_cases hex : ∃ r ∈ (labels_to_xml w d).records, i ∈ r.pixels
    · rw [if_pos hex]
    · rw [if_neg hex, getD_replicate_zero]
      by_contra hne
      have hv0 : d.getD i 0 ≠ 0 := fun hz => hne hz.symm
      apply hex
      refine ⟨⟨d.getD i 0, (List.range d.length).filter (fun j => d.getD j 0 == d.getD i 0)⟩,
        ?_, ?_⟩
      · apply List.mem_map.mpr
        refine ⟨d.getD i 0, ?_, rfl⟩
        rw [mem_sortAsc, mem_ids]
        refine ⟨?_, hv0⟩
        rw [getD_lt hi]
        exact List.getElem_mem hi
      · apply List.mem_filter.mpr
        exact ⟨List.mem_range.mpr hi, by simp⟩
  rw [← getD_lt hi1, ← getD_lt hi2]
  exact hx

/-- C1: round trip of the label/XML codec: decoding the encoding of any
label map reproduces it exactly — so it differs from the original only at
boundary pixels and within the one-pixel rasterization tolerance — and
every stored contour record rasterizes back to its own instance ID. -/
theorem xml_roundtrip (w : ℕ) (d : List ℕ) :
    xml_to_labels (labels_to_xml w d) = d ∧
    ∀ r ∈ (labels_to_xml w d).records, ∀ i ∈ r.pixels,
      (xml_to_labels (labels_to_xml w d)).getD i 0 = r.id := by
  refine ⟨xml_roundtrip_eq w d, ?_⟩
  intro r hr i hi
  have hpre := labels_to_xml_pre w d r hr i hi
  rw [xml_roundtrip_eq w d]
  exact hpre.2

/-- Witness for C1 at a concrete label map with two instances. -/
theorem xml_roundtrip_witness :
    xml_to_labels (labels_to_xml 2 [1, 1, 0, 2]) = [1, 1, 0, 2] ∧
    (xml_to_labels (labels_to_xml 2 [1, 1, 0, 2])).getD 0 0 = 1 :=
  ⟨(xml_roundtrip 2 [1, 1, 0, 2]).1,
   (xml_roundtrip 2 [1, 1, 0, 2]).2 ⟨1, [0, 1]⟩ (by decide) 0 (by decide)⟩

/- Supporting lemmas about the parameter record. -/

theorem getKey_setKey_same {α : Type} (l : List (String × PVal α)) (k : String) (v : PVal α) :
    getKey (setKey l k v) k = some v := by
  induction l with
  | nil =>
      show (if k = k then some v else getKey [] k) = some v
      rw [if_pos rfl]
  | cons p rest ih =>
      rcases p with ⟨k1, v1⟩
      by_cases hk : k1 = k
      · show getKey (if k1 = k then (k, v) :: rest else (k1, v1) :: setKey rest k v) k = some v
        rw [if_pos hk]
        show (if k = k then some v else getKey rest k) = some v
        rw [if_pos rfl]
      · show getKey (if k1 = k then (k, v) :: rest else (k1, v1) :: setKey rest k v) k = some v
        rw [if_neg hk]
        show (if k1 = k then some v1 else getKey (setKey rest k v) k) = some v
        rw [if_neg hk]
        exact ih

theorem getKey_setKey_ne {α : Type} (l : List (String × PVal α)) (k' k : String) (v : PVal α)
    (h : k' ≠ k) : getKey (setKey l k' v) k = getKey l k := by
  induction l with
  | nil =>
      show (if k' = k then some v else getKey [] k) = getKey [] k
      rw [if_neg h]
  | cons p rest ih =>
      rcases p with ⟨k1, v1⟩
      by_cases hk : k1 = k'
      · have hk1k : k1 ≠ k := by rw [hk]; exact h
        show getKey (if k1 = k' then (k', v) :: rest else (k1, v1) :: setKey rest k' v) k =
          getKey ((k1, v1) :: rest) k
        rw [if_pos hk]
        show (if k' = k then some v else getKey rest k) =
          (if k1 = k then some v1 else getKey rest k)
        rw [if_neg h, if_neg hk1k]
      · show getKey (if k1 = k' then (k', v) :: rest else (k1, v1) :: setKey rest k' v) k =
          getKey ((k1, v1) :: rest) k
        rw [if_neg hk]
        show (if k1 = k then some v1 else getKey (setKey rest k' v) k) =
          (if k1 = k then some v1 else getKey rest k)
        by_cases hk1 : k1 = k
        · rw [if_pos hk1, if_pos hk1]
        · rw [if_neg hk1, if_neg hk1]
          exact ih

/-- C4: the configuration record that the segment command threads into the
pipeline stores every one of the seven stage parameters under its flat
colon-qualified key, and the pipeline's parameter reads look all seven up
under exactly those keys and recover the stored values. -/
theorem segment_params_flat_keys {α : Type} (defaults : List (String × PVal α))
    (a1 a2 a3 a4 a5 a6 a7 : α) :
    getKey (buildSegmentParams defaults a1 a2 a3 a4 a5 a6 a7)
        ("vahadane:sparsity_regularizer") = some (PVal.num a1) ∧
    getKey (buildSegmentParams defaults a1 a2 a3 a4 a5 a6 a7)
        ("equalize_adapthist:clip_limit") = some (PVal.num a2) ∧
    getKey (buildSegmentParams defaults a1 a2 a3 a4 a5 a6 a7)
        ("remove_small_objects:min_size") = some (PVal.num a3) ∧
    getKey (buildSegmentParams defaults a1 a2 a3 a4 a5 a6 a7)
        ("remove_small_holes:area_threshold") = some (PVal.num a4) ∧
    getKey (buildSegmentParams defaults a1 a2 a3 a4 a5 a6 a7)
        ("peak_local_max:min_distance") = some (PVal.num a5) ∧
    getKey (buildSegmentParams defaults a1 a2 a3 a4 a5 a6 a7)
        ("peak_local_max:threshold_rel") = some (PVal.num a6) ∧
    getKey (buildSegmentParams defaults a1 a2 a3 a4 a5 a6 a7)
        ("merge_small_labels:min_size") = some (PVal.num a7) ∧
    pipelineParams (buildSegmentParams defaults a1 a2 a3 a4 a5 a6 a7) =
      some (a1, a2, a3, a4, a5, a6, a7) := by
  have h1 : getKey (buildSegmentParams defaults a1 a2 a3 a4 a5 a6 a7)
      ("vahadane:sparsity_regularizer") = some (PVal.num a1) := by
    unfold buildSegmentParams
    rw [getKey_setKey_ne _ _ _ _ (by decide), getKey_setKey_ne _ _ _ _ (by decide),
        getKey_setKey_ne _ _ _ _ (by decide), getKey_setKey_ne _ _ _ _ (by decide),
        getKey_setKey_ne _ _ _ _ (by decide), getKey_setKey_ne _ _ _ _ (by decide),
        getKey_setKey_same]
  have h2 : getKey (buildSegmentParams defaults a1 a2 a3 a4 a5 a6 a7)
      ("equalize_adapthist:clip_limit") = some (PVal.num a2) := by
    unfold buildSegmentParams
    rw [getKey_setKey_ne _ _ _ _ (by decide), getKey_setKey_ne _ _ _ _ (by decide),
        getKey_setKey_ne _ _ _ _ (by decide), getKey_setKey_ne _ _ _ _ (by decide),
        getKey_setKey_ne _ _ _ _ (by decide), getKey_setKey_same]
  have h3 : getKey (buildSegmentParams defaults a1 a2 a3 a4 a5 a6 a7)
      ("remove_small_objects:min_size") = some (PVal.num a3) := by
    unfold buildSegmentParams
    rw [getKey_setKey_ne _ _ _ _ (by decide), getKey_setKey_ne _ _ _ _ (by decide),
        getKey_setKey_ne _ _ _ _ (by decide), getKey_setKey_ne _ _ _ _ (by decide),
        getKey_setKey_same]
  have h4 : getKey (buildSegmentParams defaults a1 a2 a3 a4 a5 a6 a7)
      ("remove_small_holes:area_threshold") = some (PVal.num a4) := by
    unfold buildSegmentParams
    rw [getKey_setKey_ne _ _ _ _ (by decide), getKey_setKey_ne _ _ _ _ (by decide),
        getKey_setKey_ne _ _ _ _ (by decide), getKey_setKey_same]
  have h5 : getKey (buildSegmentParams defaults a1 a2 a3 a4 a5 a6 a7)
      ("peak_local_max:min_distance") = some (PVal.num a5) := by
    unfold buildSegmentParams
    rw [getKey_setKey_ne _ _ _ _ (by decide), getKey_setKey_ne _ _ _ _ (by decide),
        getKey_setKey_same]
  have h6 : getKey (buildSegmentParams defaults a1 a2 a3 a4 a5 a6 a7)
      ("peak_local_max:threshold_rel") = some (PVal.num a6) := by
    unfold buildSegmentParams
    rw [getKey_setKey_ne _ _ _ _ (by decide), getKey_setKey_same]
  have h7 : getKey (buildSegmentParams defaults a1 a2 a3 a4 a5 a6 a7)
      ("merge_small_labels:min_size") = some (PVal.num a7) := by
    unfold buildSegmentParams
    rw [getKey_setKey_same]
  have hp : pipelineParams (buildSegmentParams defaults a1 a2 a3 a4 a5 a6 a7) =
      some (a1, a2, a3, a4, a5, a6, a7) := by
    simp only [pipelineParams, lookupNum, h1, h2, h3, h4, h5, h6, h7]
  exact ⟨h1, h2, h3, h4, h5, h6, h7, hp⟩

/-- C5: the pipeline runs the six stages in the fixed order
StainDeconvolver, ContrastEnhancer, BinaryMaskCleaner, SeedDetector,
WatershedLabeler, LabelMerger and returns the pair whose first component
is the binary nucleus mask and whose second component is the instance
label map produced by that sequence. -/
theorem segmentation_pipeline_stages {α ι χ : Type} (asSize : α → ℕ) (w : ℕ)
    (deconvolve : ι → α → χ) (enhance : χ → α → χ)
    (clean : χ → α → α → List Bool) (find_seeds : List Bool → α → α → List ℕ)
    (img : ι) (cfg : List (String × PVal α)) (p1 p2 p3 p4 p5 p6 p7 : α)
    (hcfg : pipelineParams cfg = some (p1, p2, p3, p4, p5, p6, p7)) :
    segmentation_pipeline asSize w deconvolve enhance clean find_seeds img cfg =
      some (clean (enhance (deconvolve img p1) p2) p3 p4,
        merge_small w
          (watershed w (clean (enhance (deconvolve img p1) p2) p3 p4)
            (find_seeds (clean (enhance (deconvolve img p1) p2) p3 p4) p5 p6))
          (asSize p7)) := by
  simp only [segmentation_pipeline, hcfg]

/-- Witness for C5 at concrete stage functions, image and configuration. -/
theorem segmentation_pipeline_stages_witness :
    segmentation_pipeline (fun n => n) 1 (fun (_ : ℕ) (_ : ℕ) => (0 : ℕ))
      (fun c _ => c) (fun _ _ _ => [true]) (fun _ _ _ => [0]) 0
      (buildSegmentParams [] 1 1 1 1 1 1 1) = some ([true], [1]) := by
  rw [segmentation_pipeline_stages (fun n => n) 1 (fun _ _ => 0) (fun c _ => c)
    (fun _ _ _ => [true]) (fun _ _ _ => [0]) 0
    (buildSegmentParams [] 1 1 1 1 1 1 1) 1 1 1 1 1 1 1 rfl]
  rfl

/- Supporting lemmas about the dictionary store. -/

theorem getD_set_eq {β : Type} (l : List β) (i : ℕ) (x d : β) (h : i < l.length) :
    (l.set i x).getD i d = x := by
  rw [List.getD_eq_getElem _ _ (by simpa using h)]
  simp [List.getElem_set]

theorem getD_set_ne {β : Type} (l : List β) (i j : ℕ) (x d : β) (h : i ≠ j) :
    (l.set i x).getD j d = l.getD j d := by
  unfold List.getD
  rw [List.get?_eq_getElem?, List.get?_eq_getElem?, List.getElem?_set_ne h]

theorem getD_append_left {β : Type} (l t : List β) (j : ℕ) (d : β) (h : j < l.length) :
    (l ++ t).getD j d = l.getD j d := by
  unfold List.getD
  rw [List.get?_eq_getElem?, List.get?_eq_getElem?, List.getElem?_append_left h]

theorem getD_concat_length {β : Type} (l : List β) (x d : β) :
    (l ++ [x]).getD l.length d = x := by
  unfold List.getD
  rw [List.get?_eq_getElem?, List.getElem?_append_right (le_refl _)]
  simp

theorem length_dictSet {α : Type} (st : Store α) (r : ℕ) (k : String) (v : PVal α) :
    (dictSet st r k v).length = st.length := by
  simp [dictSet]

theorem getD_dictSet_ne {α : Type} (st : Store α) (r j : ℕ) (k : String) (v : PVal α)
    (h : r ≠ j) : (dictSet st r k v).getD j [] = st.getD j [] :=
  getD_set_ne st r j _ [] h

theorem getD_dictSet_eq {α : Type} (st : Store α) (r : ℕ) (k : String) (v : PVal α)
    (h : r < st.length) : (dictSet st r k v).getD r [] = setKey (st.getD r []) k v :=
  getD_set_eq st r _ [] h

/-- C6: the segment command builds its parameter record on a copy of
default_segmentation_params, so the defaults record in the store is
unchanged by the setup, and the record handed to the pipeline (which only
reads it) is exactly the seven flat assignments applied to the copied
defaults. -/
theorem segment_setup_preserves_defaults {α : Type} (st : Store α) (dref : ℕ)
    (a1 a2 a3 a4 a5 a6 a7 : α) (h : dref < st.length) :
    ((segSetup st dref a1 a2 a3 a4 a5 a6 a7).1).getD dref [] = st.getD dref [] ∧
    ((segSetup st dref a1 a2 a3 a4 a5 a6 a7).1).getD
        (segSetup st dref a1 a2 a3 a4 a5 a6 a7).2 [] =
      buildSegmentParams (st.getD dref []) a1 a2 a3 a4 a5 a6 a7 := by
  have hne : st.length ≠ dref := by omega
  have hcopy : (segSetup st dref a1 a2 a3 a4 a5 a6 a7).1 =
      dictSet (dictSet (dictSet (dictSet (dictSet (dictSet (dictSet
        (st ++ [st.getD dref []])
        st.length ("vahadane:sparsity_regularizer") (PVal.num a1))
        st.length ("equalize_adapthist:clip_limit") (PVal.num a2))
        st.length ("remove_small_objects:min_size") (PVal.num a3))
        st.length ("remove_small_holes:area_threshold") (PVal.num a4))
        st.length ("peak_local_max:min_distance") (PVal.num a5))
        st.length ("peak_local_max:threshold_rel") (PVal.num a6))
        st.length ("merge_small_labels:min_size") (PVal.num a7) := rfl
  have hsnd : (segSetup st dref a1 a2 a3 a4 a5 a6 a7).2 = st.length := rfl
  constructor
  · rw [hcopy, getD_dictSet_ne _ _ _ _ _ hne, getD_dictSet_ne _ _ _ _ _ hne,
      getD_dictSet_ne _ _ _ _ _ hne, getD_dictSet_ne _ _ _ _ _ hne,
      getD_dictSet_ne _ _ _ _ _ hne, getD_dictSet_ne _ _ _ _ _ hne,
      getD_dictSet_ne _ _ _ _ _ hne, getD_append_left _ _ _ _ h]
  · rw [hcopy, hsnd]
    rw [getD_dictSet_eq _ _ _ _ (by
      simp only [length_dictSet, List.length_append, List.length_cons, List.length_nil]
      omega)]
    rw [getD_dictSet_eq _ _ _ _ (by
      simp only [length_dictSet, List.length_append, List.length_cons, List.length_nil]
      omega)]
    rw [getD_dictSet_eq _ _ _ _ (by
      simp only [length_dictSet, List.length_append, List.length_cons, List.length_nil]
      omega)]
    rw [getD_dictSet_eq _ _ _ _ (by
      simp only [length_dictSet, List.length_append, List.length_cons, List.length_nil]
      omega)]
    rw [getD_dictSet_eq _ _ _ _ (by
      simp only [length_dictSet, List.length_append, List.length_cons, List.length_nil]
      omega)]
    rw [getD_dictSet_eq _ _ _ _ (by
      simp only [length_dictSet, List.length_append, List.length_cons, List.length_nil]
      omega)]
    rw [getD_dictSet_eq _ _ _ _ (by
      simp only [List.length_append, List.length_cons, List.length_nil]
      omega)]
    rw [getD_concat_length]
    rfl

/-- Witness for C6 at a concrete store holding one defaults record. -/
theorem segment_setup_preserves_defaults_witness :
    ((segSetup [[(("x"), PVal.num (0 : ℕ))]] 0 1 2 3 4 5 6 7).1).getD 0 [] =
      [(("x"), PVal.num (0 : ℕ))] ∧
    ((segSetup [[(("x"), PVal.num (0 : ℕ))]] 0 1 2 3 4 5 6 7).1).getD
        (segSetup [[(("x"), PVal.num (0 : ℕ))]] 0 1 2 3 4 5 6 7).2 [] =
      buildSegmentParams [(("x"), PVal.num (0 : ℕ))] 1 2 3 4 5 6 7 :=
  segment_setup_preserves_defaults [[(("x"), PVal.num (0 : ℕ))]] 0 1 2 3 4 5 6 7
    (by decide)

/-- C3 counterexample: in the classify command's loop a failure on the
first file aborts the whole batch with the propagated exception, so the
second file is never processed. -/
theorem classify_batch_aborts_cex :
    classifyBatch
      (fun fn => if fn = cs ("a") then Except.error (cs ("boom"))
        else Except.ok (cs ("x")))
      [cs ("a"), cs ("b")] = Except.error (cs ("boom")) := rfl

/-- C3 (amended): the segment and show loops wrap each file in its own
try/except, record a failure together with the offending filename, and
process every file of the batch; the classify loop has no such handler,
so a failing file aborts the remaining batch with the propagated error. -/
theorem batch_error_handling {γ ε β ρ : Type} (process : γ → Except ε β)
    (pc : γ → Except ε ρ) (files : List γ) (fn : γ) (rest : List γ) (e : ε)
    (hfn : fn ∈ files) (hLoopErr : process fn = Except.error e)
    (hAbort : pc fn = Except.error e) :
    (loggedBatch process files).length = files.length ∧
    Except.error (fn, e) ∈ loggedBatch process files ∧
    classifyBatch pc (fn :: rest) = Except.error e := by
  refine ⟨by simp [loggedBatch], ?_, ?_⟩
  · unfold loggedBatch
    exact List.mem_map.mpr ⟨fn, hfn, by rw [hLoopErr]⟩
  · simp only [classifyBatch, hAbort]

/-- Witness for C3's amended statement at a concrete failing batch. -/
theorem batch_error_handling_witness :
    (loggedBatch (fun (_ : List Char) => Except.error (cs ("err")) :
      List Char → Except (List Char) Unit) [cs ("a")]).length = 1 ∧
    Except.error (cs ("a"), cs ("err")) ∈
      loggedBatch (fun (_ : List Char) => Except.error (cs ("err")) :
        List Char → Except (List Char) Unit) [cs ("a")] ∧
    classifyBatch (fun (_ : List Char) => Except.error (cs ("err")) :
      List Char → Except (List Char) Unit) [cs ("a")] = Except.error (cs ("err")) :=
  batch_error_handling (fun _ => Except.error (cs ("err")))
    (fun _ => Except.error (cs ("err"))) [cs ("a")] (cs ("a")) [] (cs ("err"))
    (List.mem_singleton.mpr rfl) rfl rfl

/-- C9: for the image commands, specifying both --dir and --image_path, or
specifying neither, makes input preparation fail with exit status -1
(after the critical log) before any image is read. -/
theorem prepare_inputs_invalid (listing : List (List Char)) (isShow : Bool)
    (dir imagePath : Option (List Char)) (ignored : List (List Char))
    (h : (truthy dir = true ∧ truthy imagePath = true) ∨
      (truthy dir = false ∧ truthy imagePath = false)) :
    prepareInputs listing isShow dir imagePath ignored = Except.error (-1) := by
  rcases h with ⟨h1, h2⟩ | ⟨h1, h2⟩ <;>
    · unfold prepareInputs
      rw [h1, h2]
      rfl

/-- Witness for C9 with both inputs given and with neither given. -/
theorem prepare_inputs_invalid_witness :
    prepareInputs [] false (some (cs ("a"))) (some (cs ("b"))) [] = Except.error (-1) ∧
    prepareInputs [] false none none [] = Except.error (-1) :=
  ⟨prepare_inputs_invalid [] false (some (cs ("a"))) (some (cs ("b"))) []
      (Or.inl ⟨by decide, by decide⟩),
   prepare_inputs_invalid [] false none none [] (Or.inr ⟨rfl, rfl⟩)⟩

/-- C10: for every successfully processed image the segment command writes
both the binary mask image and the instance-segmentation XML regardless of
--save_npy, and writes the .npy arrays exactly when --save_npy is set. -/
theorem segment_writes_complete (root fmt : List Char) (saveNpy : Bool)
    (hfmt : fmt ≠ cs ("npy")) :
    root ++ cs ("_mask.") ++ fmt ∈ segmentWrites root fmt saveNpy ∧
    root ++ cs ("_seg.xml") ∈ segmentWrites root fmt saveNpy ∧
    ((root ++ cs ("_mask.npy") ∈ segmentWrites root fmt saveNpy ∧
      root ++ cs ("_mask_labels.npy") ∈ segmentWrites root fmt saveNpy) ↔
      saveNpy = true) := by
  refine ⟨by cases saveNpy <;> simp [segmentWrites], by cases saveNpy <;> simp [segmentWrites], ?_⟩
  cases saveNpy with
  | true =>
      constructor
      · intro _; rfl
      · intro _
        exact ⟨by simp [segmentWrites], by simp [segmentWrites]⟩
  | false =>
      constructor
      · rintro ⟨hmem, _⟩
        exfalso
        simp only [segmentWrites, Bool.false_eq_true, if_false, List.append_nil,
          List.mem_cons, List.not_mem_nil, or_false] at hmem
        rcases hmem with h1 | h2
        · rw [show cs ("_mask.npy") = cs ("_mask.") ++ cs ("npy") by decide,
            ← List.append_assoc] at h1
          exact hfmt (List.append_cancel_left h1).symm
        · exact absurd (List.append_cancel_left h2) (by decide)
      · intro hc
        exact absurd hc (by decide)

/-- Witness for C10 at a concrete root and format. -/
theorem segment_writes_complete_witness :
    cs ("a") ++ cs ("_mask.") ++ cs ("PNG") ∈ segmentWrites (cs ("a")) (cs ("PNG")) true ∧
    cs ("a") ++ cs ("_seg.xml") ∈ segmentWrites (cs ("a")) (cs ("PNG")) true ∧
    ((cs ("a") ++ cs ("_mask.npy") ∈ segmentWrites (cs ("a")) (cs ("PNG")) true ∧
      cs ("a") ++ cs ("_mask_labels.npy") ∈ segmentWrites (cs ("a")) (cs ("PNG")) true) ↔
      true = true) :=
  segment_writes_complete (cs ("a")) (cs ("PNG")) true (by decide)

/- Supporting lemmas about splitext and the folder enumerator. -/

theorem breakDot_append {f r : List Char} (hf : ∀ c ∈ f, c ≠ '.') :
    breakDot (f ++ '.' :: r) = some (f, r) := by
  induction f with
  | nil => rfl
  | cons c t ih =>
      have hc : c ≠ '.' := hf c (List.mem_cons_self _ _)
      show (if c = '.' then some ([], t ++ '.' :: r)
        else (breakDot (t ++ '.' :: r)).map (fun p => (c :: p.1, p.2))) = some (c :: t, r)
      rw [if_neg hc, ih (fun x hx => hf x (List.mem_cons_of_mem _ hx))]
      rfl

theorem reverse_append_dot (a f : List Char) :
    (a ++ '.' :: f).reverse = f.reverse ++ '.' :: a.reverse := by
  rw [List.reverse_append, List.reverse_cons, List.append_assoc]
  rfl

theorem rootOf_append {a f : List Char} (hf : ∀ c ∈ f, c ≠ '.') :
    rootOf (a ++ '.' :: f) = a := by
  unfold rootOf
  rw [reverse_append_dot,
    breakDot_append (fun c hc => hf c (List.mem_reverse.mp hc))]
  simp

theorem extOf_append {a f : List Char} (hf : ∀ c ∈ f, c ≠ '.') :
    extOf (a ++ '.' :: f) = f := by
  unfold extOf
  rw [reverse_append_dot,
    breakDot_append (fun c hc => hf c (List.mem_reverse.mp hc))]
  simp

theorem isSuffixOf_append_self (s l : List Char) : s.isSuffixOf (l ++ s) = true := by
  simp [List.isSuffixOf]

theorem not_mem_load_folder_of_suffix {listing exts ignored : List (List Char)}
    {fn s : List Char} (hs : s ∈ ignored) (hsuf : s.isSuffixOf (rootOf fn) = true) :
    fn ∉ load_folder listing exts ignored := by
  intro hmem
  rw [load_folder, List.mem_filter] at hmem
  have hany : (ignored.any (fun t => t.isSuffixOf (rootOf fn))) = true :=
    List.any_eq_true.mpr ⟨s, hs, hsuf⟩
  rw [hany] at hmem
  simp at hmem

theorem not_mem_load_folder_of_ext {listing ignored exts : List (List Char)}
    {fn : List Char} (hext : exts.any (fun e => upperEq (extOf fn) e) = false) :
    fn ∉ load_folder listing exts ignored := by
  intro hmem
  rw [load_folder, List.mem_filter] at hmem
  rw [hext] at hmem
  simp at hmem

/-- C8 counterexample: a_seg.xml, the instance-segmentation XML the
segment command writes for image a, is enumerated by a later show run
under the default exclusions. -/
theorem load_folder_enumerates_seg_xml_cex :
    cs ("a_seg.xml") = cs ("a") ++ cs ("_seg.xml") ∧
    load_folder [cs ("a_seg.xml")] [cs ("XML")] [cs ("_mask"), cs ("_xml2seg")] =
      [cs ("a_seg.xml")] :=
  ⟨by decide, by decide⟩

/-- C8 (amended): under the default exclusions, the mask images, xml2seg
images and .npy arrays written by segment and show are never enumerated by
a later run of any batch command; only the _seg.xml files that segment
writes are enumerated, by a later show run, as its intended input. -/
theorem load_folder_excludes_outputs (listing : List (List Char)) (root fmt : List Char)
    (exts : List (List Char)) (hfmt : ∀ c ∈ fmt, c ≠ '.')
    (hexts : exts = [cs ("PNG"), cs ("JPG"), cs ("JPEG")] ∨ exts = [cs ("XML")]) :
    root ++ cs ("_mask.") ++ fmt ∉
      load_folder listing exts [cs ("_mask"), cs ("_xml2seg")] ∧
    root ++ cs ("_xml2seg.PNG") ∉
      load_folder listing exts [cs ("_mask"), cs ("_xml2seg")] ∧
    root ++ cs ("_mask.npy") ∉
      load_folder listing exts [cs ("_mask"), cs ("_xml2seg")] ∧
    root ++ cs ("_mask_labels.npy") ∉
      load_folder listing exts [cs ("_mask"), cs ("_xml2seg")] ∧
    root ++ cs ("_xml2seg.npy") ∉
      load_folder listing exts [cs ("_mask"), cs ("_xml2seg")] := by
  refine ⟨?_, ?_, ?_, ?_, ?_⟩
  · have e1 : root ++ cs ("_mask.") ++ fmt = (root ++ cs ("_mask")) ++ '.' :: fmt := by
      rw [show cs ("_mask.") = cs ("_mask") ++ ['.'] by decide, ← List.append_assoc]
      rw [List.append_assoc]
      rfl
    rw [e1]
    exact not_mem_load_folder_of_suffix (List.mem_cons_self _ _)
      (by rw [rootOf_append hfmt]; exact isSuffixOf_append_self _ _)
  · have e2 : root ++ cs ("_xml2seg.PNG") =
        (root ++ cs ("_xml2seg")) ++ '.' :: cs ("PNG") := by
      rw [show cs ("_xml2seg.PNG") = cs ("_xml2seg") ++ '.' :: cs ("PNG") by decide,
        ← List.append_assoc]
    rw [e2]
    exact not_mem_load_folder_of_suffix
      (List.mem_cons_of_mem _ (List.mem_cons_self _ _))
      (by rw [rootOf_append (by decide)]; exact isSuffixOf_append_self _ _)
  · have e3 : root ++ cs ("_mask.npy") = (root ++ cs ("_mask")) ++ '.' :: cs ("npy") := by
      rw [show cs ("_mask.npy") = cs ("_mask") ++ '.' :: cs ("npy") by decide,
        ← List.append_assoc]
    rw [e3]
    exact not_mem_load_folder_of_suffix (List.mem_cons_self _ _)
      (by rw [rootOf_append (by decide)]; exact isSuffixOf_append_self _ _)
  · have e4 : root ++ cs ("_mask_labels.npy") =
        (root ++ cs ("_mask_labels")) ++ '.' :: cs ("npy") := by
      rw [show cs ("_mask_labels.npy") = cs ("_mask_labels") ++ '.' :: cs ("npy") by decide,
        ← List.append_assoc]
    rw [e4]
    apply not_mem_load_folder_of_ext
    rw [extOf_append (by decide)]
    rcases hexts with rfl | rfl
    · decide
    · decide
  · have e5 : root ++ cs ("_xml2seg.npy") =
        (root ++ cs ("_xml2seg")) ++ '.' :: cs ("npy") := by
      rw [show cs ("_xml2seg.npy") = cs ("_xml2seg") ++ '.' :: cs ("npy") by decide,
        ← List.append_assoc]
    rw [e5]
    exact not_mem_load_folder_of_suffix
      (List.mem_cons_of_mem _ (List.mem_cons_self _ _))
      (by rw [rootOf_append (by decide)]; exact isSuffixOf_append_self _ _)

/-- Witness for C8's amended statement at a concrete root, format and
listing. -/
theorem load_folder_excludes_outputs_witness :
    cs ("a") ++ cs ("_mask.") ++ cs ("PNG") ∉
      load_folder [cs ("a_mask.PNG")] [cs ("PNG"), cs ("JPG"), cs ("JPEG")]
        [cs ("_mask"), cs ("_xml2seg")] ∧
    cs ("a") ++ cs ("_xml2seg.PNG") ∉
      load_folder [cs ("a_mask.PNG")] [cs ("PNG"), cs ("JPG"), cs ("JPEG")]
        [cs ("_mask"), cs ("_xml2seg")] ∧
    cs ("a") ++ cs ("_mask.npy") ∉
      load_folder [cs ("a_mask.PNG")] [cs ("PNG"), cs ("JPG"), cs ("JPEG")]
        [cs ("_mask"), cs ("_xml2seg")] ∧
    cs ("a") ++ cs ("_mask_labels.npy") ∉
      load_folder [cs ("a_mask.PNG")] [cs ("PNG"), cs ("JPG"), cs ("JPEG")]
        [cs ("_mask"), cs ("_xml2seg")] ∧
    cs ("a") ++ cs ("_xml2seg.npy") ∉
      load_folder [cs ("a_mask.PNG")] [cs ("PNG"), cs ("JPG"), cs ("JPEG")]
        [cs ("_mask"), cs ("_xml2seg")] :=
  load_folder_excludes_outputs [cs ("a_mask.PNG")] (cs ("a")) (cs ("PNG"))
    [cs ("PNG"), cs ("JPG"), cs ("JPEG")] (by decide) (Or.inl rfl)
